import Mathlib

/-!
Verification of the SpiritMS Admin Commands Spider: a shallow embedding of
the source-annotation scanner (main.py), the documentation scanner
(docs_processor.py) and the reconciliation logic, with the claims of the
specification settled against it.

Lines of text are modelled as lists of characters; Python exceptions are
modelled by explicit result values (Option / dedicated constructors).
-/

namespace SpiritSpider

/-- A line of text, as Python hands it to the core (one string). -/
abbrev Line := List Char

/-- Python substring containment: the test written as a `pat in s`. -/
def containsSub (pat : Line) (s : Line) : Bool :=
  match s with
  | [] => pat.isPrefixOf []
  | _ :: rest => pat.isPrefixOf s || containsSub pat rest

/-- Python a `s.index(pat)`: the lowest index at which `pat` occurs in `s`;
`none` models the `ValueError` raised when `pat` does not occur. -/
def indexOfSub? (pat : Line) (s : Line) : Option Nat :=
  match s with
  | [] => if pat.isPrefixOf [] then some 0 else none
  | _ :: rest =>
    if pat.isPrefixOf s then some 0
    else (indexOfSub? pat rest).map (· + 1)

/-- Python slice a `s[a:b]` for non-negative bounds. -/
def pyslice (s : Line) (a b : Nat) : Line := (s.take b).drop a

/-- Python a `s.split(", ")`: non-overlapping, left to right; the empty
string yields one empty piece, as in Python. -/
def split_comma_space : Line → List Line
  | [] => [[]]
  | ',' :: ' ' :: rest => [] :: split_comma_space rest
  | c :: rest =>
    match split_comma_space rest with
    | [] => [[c]]
    | piece :: pieces => (c :: piece) :: pieces

/-- Metadata the source scanner attaches to a command class:
its alias list and the permission string (main.py, extract_commands). -/
structure CmdMeta where
  aliases : List Line
  permission : Line
deriving DecidableEq, Repr

/-- The commands mapping, keyed by class name in insertion order
(a Python dict's items). -/
abbrev Commands := List (Line × CmdMeta)

/-- Python dict assignment a `d[k] = v`: an existing key keeps its
position, a new key goes to the end. -/
def dict_insert (m : Commands) (k : Line) (v : CmdMeta) : Commands :=
  match m with
  | [] => [(k, v)]
  | (k', v') :: rest =>
    if k' = k then (k, v) :: rest else (k', v') :: dict_insert rest k v

/-! ## main.py: the source-annotation scanner -/

/-- main.py, contains_command: a line declares a command when it holds
the marker substring. -/
def contains_command (line : Line) : Bool :=
  containsSub "@Command(".toList line

/-- main.py, extract_class_name: index of the token "class" plus six, then
the first piece of a split on blanks (equivalently: the characters up to the
first blank). `none` models the uncaught `ValueError` of `line.index` when
the token is absent. -/
def extract_class_name (line : Line) : Option Line :=
  (indexOfSub? "class".toList line).map fun i =>
    List.takeWhile (fun c => c ≠ ' ') (line.drop (i + 6))

/-- How a run of main.py's extract_aliases ends. -/
inductive AliasResult where
  /-- The alias list was sliced out, quote-stripped and split. -/
  | ok (aliases : List Line)
  /-- An exception escapes: an uncaught `ValueError` in the braceless
  branch, or (in the brace branch) a `ValueError` that is caught and logged
  but leaves `start`/`end` unbound, so the final slice raises. -/
  | crash
deriving DecidableEq, Repr

/-- main.py, extract_aliases: the slice between the delimiters, all double
quotes removed, split on ", ". -/
def extract_aliases (line : Line) : AliasResult :=
  if containsSub "\x7b".toList line then
    match indexOfSub? "\x7b".toList line, indexOfSub? "\x7d".toList line with
    | some i, some j =>
      .ok (split_comma_space ((pyslice line (i + 1) j).filter (fun c => c ≠ '"')))
    | _, _ => .crash
  else
    match indexOfSub? " \"".toList line, indexOfSub? ",".toList line with
    | some i, some j =>
      .ok (split_comma_space ((pyslice line (i + 1) j).filter (fun c => c ≠ '"')))
    | _, _ => .crash

/-- main.py, extract_permission_level: the slice from one past the first
"." to two characters before the end. `none` models the uncaught
`ValueError` when the line has no ".". -/
def extract_permission_level (line : Line) : Option Line :=
  (indexOfSub? ".".toList line).map fun i => pyslice line (i + 1) (line.length - 2)

/-- How a run of main.py's extract_commands ends. -/
inductive ScanResult where
  /-- The bare `return` on empty input: the Python value `None`. -/
  | pyNone
  /-- The filled output buffer. -/
  | ok (cmds : Commands)
  /-- An uncaught exception aborts the scan: `IndexError` on the line after
  the last, or a `ValueError`/unbound-local failure in a helper. -/
  | crash
deriving DecidableEq, Repr

/-- The loop of main.py, extract_commands: on a marker line, the class name
comes from the following line, then aliases and permission from the marker
line itself. -/
def scan_lines : List Line → Commands → ScanResult
  | [], acc => .ok acc
  | line :: rest, acc =>
    if contains_command line then
      match rest with
      | [] => .crash
      | next :: _ =>
        match extract_class_name next with
        | none => .crash
        | some name =>
          match extract_aliases line with
          | .crash => .crash
          | .ok al =>
            match extract_permission_level line with
            | none => .crash
            | some perm => scan_lines rest (dict_insert acc name ⟨al, perm⟩)
    else scan_lines rest acc

/-- main.py, extract_commands: empty input takes the early bare `return`
(Python `None`); otherwise the indexed loop fills the output buffer. -/
def extract_commands (file_contents : List Line) : ScanResult :=
  if file_contents.isEmpty then .pyNone
  else scan_lines file_contents []

/-! ## docs_processor.py: the documentation scanner -/

/-- The five tier lists together with the mode cursor of
docs_processor.py, extract_raw_commands. -/
structure DocsState where
  mode : Nat
  player : List Line
  tester : List Line
  intern : List Line
  gamemaster : List Line
  admin : List Line
deriving DecidableEq, Repr

/-- The loop state at the top of extract_raw_commands: mode 0, all five
lists empty. -/
def init_docs_state : DocsState :=
  { mode := 0, player := [], tester := [], intern := [], gamemaster := [], admin := [] }

/-- The mode update of extract_raw_commands: a line containing "## " bumps
the cursor, then the canonical Player header resets it to 0. -/
def next_mode (mode : Nat) (line : Line) : Nat :=
  let m := if containsSub "## ".toList line then mode + 1 else mode
  if containsSub "## Player level commands:".toList line then 0 else m

/-- The selection test of extract_raw_commands: the line holds "**!" and
holds the sequence "**\" followed by the line break. -/
def is_command_mention (line : Line) : Bool :=
  containsSub "**!".toList line && containsSub "**\\\n".toList line

/-- The if/elif chain of extract_raw_commands routing a selected line into
the list for the current mode (modes four and beyond go to admin). -/
def append_to_bucket (st : DocsState) (line : Line) : DocsState :=
  if st.mode = 0 then { st with player := st.player ++ [line] }
  else if st.mode = 1 then { st with tester := st.tester ++ [line] }
  else if st.mode = 2 then { st with intern := st.intern ++ [line] }
  else if st.mode = 3 then { st with gamemaster := st.gamemaster ++ [line] }
  else { st with admin := st.admin ++ [line] }

/-- One iteration of the loop of extract_raw_commands. -/
def process_docs_line (st : DocsState) (line : Line) : DocsState :=
  let st' := { st with mode := next_mode st.mode line }
  if is_command_mention line then append_to_bucket st' line else st'

/-- docs_processor.py, extract_raw_commands. -/
def extract_raw_commands (file_contents : List Line) : DocsState :=
  file_contents.foldl process_docs_line init_docs_state

/-- docs_processor.py, strip_formatting: the slice `line[3:-4]` of every
line. -/
def strip_formatting (lines : List Line) : List Line :=
  lines.map fun line => pyslice line 3 (line.length - 4)

/-- docs_processor.py, extract_commands: strip_formatting over each of the
five raw lists. -/
def docs_extract_commands (file_contents : List Line) : DocsState :=
  let raw := extract_raw_commands file_contents
  { raw with
      player := strip_formatting raw.player
      tester := strip_formatting raw.tester
      intern := strip_formatting raw.intern
      gamemaster := strip_formatting raw.gamemaster
      admin := strip_formatting raw.admin }

/-- docs_processor.py, command_not_in_docs: the loop returning False on the
first alias found in the docs list, True when the loop falls through. -/
def command_not_in_docs : List Line → List Line → Bool
  | [], _ => true
  | c :: rest, lvl => if lvl.contains c then false else command_not_in_docs rest lvl

/-! ## main.py: the reconciler -/

/-- main.py, get_target_by_permission_level: the if/elif chain over the
five globals; everything not named falls into the final else (admin). -/
def get_target_by_permission_level (docs : DocsState) (permission_level : Line) : List Line :=
  if permission_level = "Player".toList then docs.player
  else if permission_level = "Tester".toList then docs.tester
  else if permission_level = "Intern".toList then docs.intern
  else if permission_level = "GameMaster".toList then docs.gamemaster
  else docs.admin

/-- main.py, fetch_new_commands: keep each entry whose aliases all miss the
docs list of its permission level. -/
def fetch_new_commands (docs : DocsState) (extracted_commands : Commands) : Commands :=
  extracted_commands.foldl
    (fun buffer e =>
      if command_not_in_docs e.2.aliases (get_target_by_permission_level docs e.2.permission)
      then buffer ++ [e] else buffer)
    []

/-- main.py, permission_text. -/
def permission_text (number : Nat) : Line :=
  if number = 0 then "Player Commands:\n".toList
  else if number = 1 then "Tester Commands:\n".toList
  else if number = 2 then "Intern Commands:\n".toList
  else if number = 3 then "GameMaster Commands:\n".toList
  else "Admin Commands:\n".toList

/-- main.py, fetch_outdated_commands: flatten every command's aliases, then
walk the five doc lists with their index, emitting the label, the separator
and either the filtered leftovers or the NONE line. -/
def fetch_outdated_commands (docs : DocsState) (extracted_commands : Commands) : List Line :=
  let aliases := extracted_commands.foldl (fun acc e => acc ++ e.2.aliases) []
  let docs_aliases := [docs.player, docs.tester, docs.intern, docs.gamemaster, docs.admin]
  let output := ["=== Outdated Aliases ===".toList,
    "These are aliases in the SpiritSuite docs that are no longer part of the SpiritMS repository.\n".toList]
  docs_aliases.enum.foldl
    (fun out p =>
      let out := out ++ [permission_text p.1, "=====================".toList]
      let buffer := p.2.filter (fun c => !(aliases.contains c))
      if buffer.isEmpty then out ++ ["NONE\n".toList] else out ++ buffer)
    output

/-! ## Helper lemmas shared by the claim theorems -/

/-- The substring test agrees with list-infix containment. -/
theorem containsSub_spec (pat : Line) (s : Line) :
    containsSub pat s = true ↔ pat <:+: s := by
  induction s with
  | nil => simp [containsSub, List.isPrefixOf_iff_prefix]
  | cons c rest ih =>
    simp only [containsSub, Bool.or_eq_true, List.isPrefixOf_iff_prefix, ih,
      List.infix_cons_iff]

/-- A line with no occurrence of a pattern has no occurrence of any line
extending that pattern. -/
theorem containsSub_false_of_sub (pat big s : Line) (hsub : pat <:+: big)
    (h : containsSub pat s = false) : containsSub big s = false := by
  rw [← Bool.not_eq_true] at h ⊢
  intro hb
  exact h ((containsSub_spec pat s).mpr (hsub.trans ((containsSub_spec big s).mp hb)))

/-- Bool-level membership on lines agrees with propositional membership. -/
theorem contains_line_iff (l : List Line) (c : Line) : l.contains c = true ↔ c ∈ l := by
  simp [List.contains]

/-- The alias-check loop returns true exactly when no alias is documented. -/
theorem command_not_in_docs_iff (al lvl : List Line) :
    command_not_in_docs al lvl = true ↔ ∀ a ∈ al, a ∉ lvl := by
  induction al with
  | nil => simp [command_not_in_docs]
  | cons c rest ih =>
    by_cases h : c ∈ lvl
    · have hc : lvl.contains c = true := (contains_line_iff lvl c).mpr h
      simp [command_not_in_docs, hc, h]
    · have hc : lvl.contains c = false := by
        rw [← Bool.not_eq_true]
        exact fun hb => h ((contains_line_iff lvl c).mp hb)
      simp [command_not_in_docs, hc, ih, h]

/-- The select-and-append fold is a filter. -/
theorem foldl_select_eq_filter {α : Type} (p : α → Bool) (l : List α) (acc : List α) :
    l.foldl (fun b e => if p e then b ++ [e] else b) acc = acc ++ l.filter p := by
  induction l generalizing acc with
  | nil => simp
  | cons x xs ih =>
    by_cases h : p x <;> simp [h, ih, List.filter_cons]

/-- fetch_new_commands is a filter over the commands mapping. -/
theorem fetch_new_eq_filter (docs : DocsState) (cmds : Commands) :
    fetch_new_commands docs cmds =
      cmds.filter (fun e =>
        command_not_in_docs e.2.aliases (get_target_by_permission_level docs e.2.permission)) := by
  unfold fetch_new_commands
  simpa using foldl_select_eq_filter _ cmds []

/-- Membership in fetch_new_commands: the entry is in the input and none of
its aliases occurs in its claimed tier's doc list. -/
theorem mem_fetch_new_iff (docs : DocsState) (cmds : Commands) (n : Line) (m : CmdMeta) :
    (n, m) ∈ fetch_new_commands docs cmds ↔
      ((n, m) ∈ cmds ∧ ∀ a ∈ m.aliases, a ∉ get_target_by_permission_level docs m.permission) := by
  rw [fetch_new_eq_filter, List.mem_filter, command_not_in_docs_iff]

/-- The alias-flattening fold is flatten-of-map. -/
theorem foldl_append_eq_flatten (cmds : Commands) (acc : List Line) :
    cmds.foldl (fun acc e => acc ++ e.2.aliases) acc =
      acc ++ (cmds.map (fun e => e.2.aliases)).flatten := by
  induction cmds generalizing acc with
  | nil => simp
  | cons x xs ih => simp [ih]

/-! ## Claim theorems -/

/-- C1: fetch_new_commands flags a command (keeps it, metadata unchanged)
exactly when none of its aliases occurs in the doc list looked up for its
claimed tier; it is a filter of the input mapping, so it is empty when every
command has a documented alias under its tier and is the whole input when no
command has one. The existence test means one documented alias suffices to
escape flagging. -/
theorem fetch_new_commands_flags_iff (docs : DocsState) (cmds : Commands) :
    fetch_new_commands docs cmds =
      cmds.filter (fun e =>
        command_not_in_docs e.2.aliases (get_target_by_permission_level docs e.2.permission)) ∧
    (∀ n m, (n, m) ∈ fetch_new_commands docs cmds ↔
      ((n, m) ∈ cmds ∧ ∀ a ∈ m.aliases, a ∉ get_target_by_permission_level docs m.permission)) ∧
    ((∀ e ∈ cmds, ∃ a ∈ e.2.aliases, a ∈ get_target_by_permission_level docs e.2.permission) →
      fetch_new_commands docs cmds = []) ∧
    ((∀ e ∈ cmds, ∀ a ∈ e.2.aliases, a ∉ get_target_by_permission_level docs e.2.permission) →
      fetch_new_commands docs cmds = cmds) := by
  refine ⟨fetch_new_eq_filter docs cmds, mem_fetch_new_iff docs cmds, ?_, ?_⟩
  · intro h
    rw [fetch_new_eq_filter, List.filter_eq_nil_iff]
    intro e he hflag
    rcases h e he with ⟨a, ha, hmem⟩
    exact (command_not_in_docs_iff _ _).mp hflag a ha hmem
  · intro h
    rw [fetch_new_eq_filter, List.filter_eq_self]
    intro e he
    exact (command_not_in_docs_iff _ _).mpr (h e he)

/-- C2 counterexample: the permission string "Banana" is none of the five
recognized tier names, yet the lookup silently returns the Admin doc list
and fetch_new_commands processes the entry normally (here: it is treated as
documented under Admin and not flagged); no error value exists anywhere in
this code path. -/
theorem unrecognized_permission_silently_coerced_cex :
    ("Banana".toList ≠ "Player".toList ∧ "Banana".toList ≠ "Tester".toList ∧
     "Banana".toList ≠ "Intern".toList ∧ "Banana".toList ≠ "GameMaster".toList ∧
     "Banana".toList ≠ "Admin".toList) ∧
    get_target_by_permission_level
      { mode := 0, player := [], tester := [], intern := [], gamemaster := [],
        admin := [['x']] } "Banana".toList = [['x']] ∧
    fetch_new_commands
      { mode := 0, player := [], tester := [], intern := [], gamemaster := [],
        admin := [['x']] }
      [("Foo".toList, ⟨[['x']], "Banana".toList⟩)] = [] := by decide

/-- C2 amended: a permission string that is not Player, Tester, Intern or
GameMaster falls through the if/elif chain to the final else, so the lookup
silently hands back the Admin tier list; nothing is reported. -/
theorem unrecognized_permission_maps_to_admin (docs : DocsState) (p : Line)
    (h1 : p ≠ "Player".toList) (h2 : p ≠ "Tester".toList)
    (h3 : p ≠ "Intern".toList) (h4 : p ≠ "GameMaster".toList) :
    get_target_by_permission_level docs p = docs.admin := by
  rw [get_target_by_permission_level, if_neg h1, if_neg h2, if_neg h3, if_neg h4]

/-- Witness for the amended C2 at the concrete permission "Banana". -/
theorem unrecognized_permission_maps_to_admin_witness :
    get_target_by_permission_level
      { mode := 0, player := [['p']], tester := [['t']], intern := [['i']],
        gamemaster := [['g']], admin := [['a']] } "Banana".toList = [['a']] :=
  unrecognized_permission_maps_to_admin _ _ (by decide) (by decide) (by decide) (by decide)

/-- C10: the alias-check loop falls through immediately on an empty alias
list, so a command whose alias list is empty is always flagged by
fetch_new_commands, whatever the documentation holds. -/
theorem empty_alias_command_always_flagged (docs : DocsState) (cmds : Commands)
    (n : Line) (m : CmdMeta) (h1 : (n, m) ∈ cmds) (h2 : m.aliases = []) :
    command_not_in_docs m.aliases (get_target_by_permission_level docs m.permission) = true ∧
    (n, m) ∈ fetch_new_commands docs cmds := by
  constructor
  · rw [h2]
    rfl
  · rw [mem_fetch_new_iff]
    refine ⟨h1, ?_⟩
    rw [h2]
    intro a ha
    cases ha

/-- Witness for C10 at a concrete empty-alias command. -/
theorem empty_alias_command_always_flagged_witness :
    command_not_in_docs (CmdMeta.mk [] "Admin".toList).aliases
      (get_target_by_permission_level init_docs_state
        (CmdMeta.mk [] "Admin".toList).permission) = true ∧
    ("Foo".toList, CmdMeta.mk [] "Admin".toList) ∈
      fetch_new_commands init_docs_state
        [("Foo".toList, CmdMeta.mk [] "Admin".toList)] :=
  empty_alias_command_always_flagged _ _ _ _ (by decide) rfl

/-- The flattened alias collection of C3: every alias of every command,
tier ignored. -/
def flat_aliases (cmds : Commands) : List Line :=
  (cmds.map (fun e => e.2.aliases)).flatten

/-- One labeled tier section of the outdated report: the label, the
separator, then the tier's doc aliases missing from `flat` in document
order, or the NONE line when none are missing. -/
def outdated_section (flat : List Line) (level : List Line) (i : Nat) : List Line :=
  let buffer := level.filter (fun c => !(flat.contains c))
  [permission_text i, "=====================".toList] ++
    (if buffer.isEmpty then ["NONE\n".toList] else buffer)

/-- C3: the outdated report is the fixed title and description followed by
the five labeled tier sections in the order Player, Tester, Intern,
GameMaster, Admin, each listing exactly the tier's doc aliases with no
match in the flattened collection of all commands' aliases (in document
order) or the NONE sentinel when that list is empty. -/
theorem fetch_outdated_commands_report_structure (docs : DocsState) (cmds : Commands) :
    fetch_outdated_commands docs cmds =
      ["=== Outdated Aliases ===".toList,
       "These are aliases in the SpiritSuite docs that are no longer part of the SpiritMS repository.\n".toList]
      ++ outdated_section (flat_aliases cmds) docs.player 0
      ++ outdated_section (flat_aliases cmds) docs.tester 1
      ++ outdated_section (flat_aliases cmds) docs.intern 2
      ++ outdated_section (flat_aliases cmds) docs.gamemaster 3
      ++ outdated_section (flat_aliases cmds) docs.admin 4 ∧
    (∀ (level : List Line) (c : Line),
      c ∈ level.filter (fun c => !((flat_aliases cmds).contains c)) ↔
        (c ∈ level ∧ ¬ ∃ e ∈ cmds, c ∈ e.2.aliases)) := by
  constructor
  · have halias : cmds.foldl (fun acc e => acc ++ e.2.aliases) [] = flat_aliases cmds := by
      simpa [flat_aliases] using foldl_append_eq_flatten cmds []
    simp only [fetch_outdated_commands, halias, List.enum, List.enumFrom, List.foldl,
      outdated_section]
    split_ifs <;> simp [List.append_assoc]
  · intro level c
    rw [List.mem_filter]
    constructor
    · rintro ⟨hm, hb⟩
      refine ⟨hm, ?_⟩
      rintro ⟨e, he, ha⟩
      have : (flat_aliases cmds).contains c = true := by
        rw [contains_line_iff, flat_aliases, List.mem_flatten]
        exact ⟨e.2.aliases, List.mem_map_of_mem _ he, ha⟩
      simp [this] at hb
      exact hb ((contains_line_iff _ _).mp this)
    · rintro ⟨hm, hno⟩
      refine ⟨hm, ?_⟩
      rw [Bool.not_eq_true']
      rw [← Bool.not_eq_true, contains_line_iff, flat_aliases, List.mem_flatten]
      rintro ⟨al, hal, hc⟩
      rcases List.mem_map.mp hal with ⟨e, he, rfl⟩
      exact hno ⟨e, he, hc⟩

/-- C5: a marker line whose alias delimiters are absent, or a marker line
whose following line lacks the class keyword, makes the scan crash with an
uncaught exception (modelled by the crash results) instead of warning and
skipping the entry: in extract_aliases the missing closing brace leads to a
logged warning and then an unbound-local failure at the slice, and
extract_class_name raises an uncaught ValueError, either of which aborts
extract_commands. -/
theorem scan_crashes_on_malformed_lines :
    extract_aliases "    @Command(names = \x7b\"kick\", requiredType = Char.Admin)\n".toList =
      .crash ∧
    extract_class_name "no keyword here\n".toList = none ∧
    extract_commands
      ["    @Command(names = \x7b\"kick\", requiredType = Char.Admin)\n".toList,
       "    public static class Kick extends AdminCommand \x7b\n".toList] = .crash ∧
    extract_commands
      ["    @Command(names = \x7b\"kick\"\x7d, requiredType = Char.Admin)\n".toList,
       "    public static void helper() \x7b\n".toList] = .crash := by decide

/-- C7: on an empty line sequence the scan takes the early bare return, so
the caller receives the Python value None rather than an empty commands
mapping; None is not the empty mapping (and the reconciliation operations,
which iterate a mapping's items, cannot consume it). -/
theorem extract_commands_empty_input :
    extract_commands ([] : List Line) = .pyNone ∧
    ScanResult.pyNone ≠ .ok [] := by decide

/-- The index of the final "." of a line: the reading of the claim for C6. -/
def last_dot_index? : Line → Option Nat
  | [] => none
  | c :: rest =>
    match last_dot_index? rest with
    | some i => some (i + 1)
    | none => if c = '.' then some 0 else none

/-- Permission extraction as the claim words it for C6: the substring after
the final "." of the line, with the trailing two characters stripped. -/
def extract_permission_level_final (line : Line) : Option Line :=
  (last_dot_index? line).map fun i => pyslice line (i + 1) (line.length - 2)

/-- A line without a dot has no final dot. -/
theorem last_dot_index_none_of_count_zero (l : Line) (h : l.count '.' = 0) :
    last_dot_index? l = none := by
  induction l with
  | nil => rfl
  | cons c rest ih =>
    rw [List.count_cons] at h
    have hrest : rest.count '.' = 0 := by omega
    have hc : ¬ c = '.' := by
      intro hc
      simp [hc] at h
    rw [last_dot_index?, ih hrest, if_neg hc]

/-- A line without a dot has no first dot either. -/
theorem indexOfSub_dot_none_of_count_zero (l : Line) (h : l.count '.' = 0) :
    indexOfSub? ['.'] l = none := by
  induction l with
  | nil => rfl
  | cons c rest ih =>
    rw [List.count_cons] at h
    have hrest : rest.count '.' = 0 := by omega
    have hc : ¬ c = '.' := by
      intro hc
      simp [hc] at h
    have hpre : (['.'] : Line).isPrefixOf (c :: rest) = false := by
      rw [← Bool.not_eq_true, List.isPrefixOf_iff_prefix]
      intro hp
      exact hc (List.cons_prefix_cons.mp hp).1.symm
    rw [indexOfSub?, if_neg (by simp [hpre]), ih hrest]
    rfl

/-- A line with no final dot has no dot at all. -/
theorem count_zero_of_last_dot_none (l : Line) (h : last_dot_index? l = none) :
    l.count '.' = 0 := by
  induction l with
  | nil => rfl
  | cons c rest ih =>
    rw [last_dot_index?] at h
    rcases hl : last_dot_index? rest with _ | i
    · rw [hl] at h
      have hc : ¬ c = '.' := by
        intro hc
        rw [if_pos hc] at h
        cases h
      rw [List.count_cons, ih hl]
      simp [hc]
    · rw [hl] at h
      cases h

/-- On a line with exactly one dot, the first dot is the final dot. -/
theorem indexOfSub_dot_eq_last_of_count_one (l : Line) (h : l.count '.' = 1) :
    indexOfSub? ['.'] l = last_dot_index? l := by
  induction l with
  | nil => rfl
  | cons c rest ih =>
    rw [List.count_cons] at h
    by_cases hc : c = '.'
    · have hrest : rest.count '.' = 0 := by
        simp [hc] at h
        omega
      have hpre : (['.'] : Line).isPrefixOf (c :: rest) = true := by
        rw [ List.isPrefixOf_iff_prefix, hc]
        exact ⟨rest, rfl⟩
      rw [indexOfSub?, if_pos hpre, last_dot_index?,
        last_dot_index_none_of_count_zero rest hrest, if_pos hc]
    · have hrest : rest.count '.' = 1 := by
        simp [hc] at h
        omega
      have hpre : (['.'] : Line).isPrefixOf (c :: rest) = false := by
        rw [← Bool.not_eq_true, List.isPrefixOf_iff_prefix]
        intro hp
        exact hc (List.cons_prefix_cons.mp hp).1.symm
      have hsome : ∃ j, last_dot_index? rest = some j := by
        rcases hl : last_dot_index? rest with _ | j
        · exact absurd (count_zero_of_last_dot_none rest hl) (by omega)
        · exact ⟨j, rfl⟩
      rcases hsome with ⟨j, hj⟩
      rw [indexOfSub?, if_neg (by simp [hpre]), ih hrest, hj, last_dot_index?, hj]
      rfl

/-- C6 counterexample: on a line with two dots the code slices after the
first dot, not the final one, so the extracted value is "b.Admin" where the
final-dot reading gives "Admin"; and an extracted value outside the five
tier names ("Banana") is returned as a plain success with no warning of any
kind. -/
theorem extract_permission_level_first_dot_cex :
    extract_permission_level "@Command(a.b.Admin)\n".toList = some "b.Admin".toList ∧
    extract_permission_level_final "@Command(a.b.Admin)\n".toList = some "Admin".toList ∧
    some "b.Admin".toList ≠ some "Admin".toList ∧
    extract_permission_level "@Command(x.Banana)\n".toList = some "Banana".toList := by
  decide

/-- C6 amended: the extracted permission value is the substring after the
first "." of the line with the trailing two characters stripped, which
agrees with the claimed final-dot reading exactly on lines holding a single
"."; no warning accompanies an unrecognized value. -/
theorem extract_permission_level_single_dot (line : Line) (h : line.count '.' = 1) :
    extract_permission_level line = extract_permission_level_final line := by
  rw [extract_permission_level, extract_permission_level_final]
  have : indexOfSub? ".".toList line = last_dot_index? line :=
    indexOfSub_dot_eq_last_of_count_one line h
  rw [this]

/-- Witness for the amended C6 at a concrete single-dot line. -/
theorem extract_permission_level_single_dot_witness :
    extract_permission_level "@Command(x.Admin)\n".toList =
      extract_permission_level_final "@Command(x.Admin)\n".toList :=
  extract_permission_level_single_dot _ (by decide)

/-- The tier bucket of a docs-scan state under its index (0 Player,
1 Tester, 2 Intern, 3 GameMaster, 4 and beyond Admin). -/
def bucket_get (st : DocsState) : Nat → List Line
  | 0 => st.player
  | 1 => st.tester
  | 2 => st.intern
  | 3 => st.gamemaster
  | _ => st.admin

/-- Routing a selected line never touches the mode. -/
theorem append_to_bucket_mode (st : DocsState) (l : Line) :
    (append_to_bucket st l).mode = st.mode := by
  rw [append_to_bucket]
  split_ifs <;> rfl

/-- One scan step changes the mode by next_mode alone. -/
theorem process_docs_line_mode (st : DocsState) (l : Line) :
    (process_docs_line st l).mode = next_mode st.mode l := by
  rw [process_docs_line]
  split_ifs with h
  · rw [append_to_bucket_mode]
  · rfl

/-- Routing a selected line appends it to the bucket at min of the mode
and four, and leaves every other bucket alone. -/
theorem append_to_bucket_get (st : DocsState) (l : Line) :
    bucket_get (append_to_bucket st l) (min st.mode 4) =
      bucket_get st (min st.mode 4) ++ [l] := by
  rcases st with ⟨m, p, t, i, g, a⟩
  match m with
  | 0 => rfl
  | 1 => rfl
  | 2 => rfl
  | 3 => rfl
  | n + 4 =>
    have h4 : min (n + 4) 4 = 4 := by omega
    rw [append_to_bucket]
    dsimp only
    rw [if_neg (by omega), if_neg (by omega), if_neg (by omega), if_neg (by omega), h4]
    rfl

/-- C4: the docs scan's tier cursor starts at 0; a line containing "## "
and not the canonical Player header advances it by one; a line containing
the canonical Player header resets it to 0; the cursor of the full scan is
the fold of next_mode; after N such header lines from the reset cursor the
cursor equals N; and a selected non-header line is then placed in the
bucket numbered min N 4, the fifth (Admin) bucket for any cursor of 4 or
more. -/
theorem docs_tier_cursor_property (hls : List Line)
    (h : ∀ l ∈ hls, containsSub "## ".toList l = true ∧
      containsSub "## Player level commands:".toList l = false) :
    init_docs_state.mode = 0 ∧
    (∀ (m : Nat) (l : Line), containsSub "## ".toList l = true →
      containsSub "## Player level commands:".toList l = false → next_mode m l = m + 1) ∧
    (∀ (m : Nat) (l : Line), containsSub "## Player level commands:".toList l = true →
      next_mode m l = 0) ∧
    (∀ (lines : List Line) (st : DocsState),
      (lines.foldl process_docs_line st).mode = lines.foldl next_mode st.mode) ∧
    hls.foldl next_mode 0 = hls.length ∧
    (∀ (st : DocsState) (l : Line), st.mode = hls.length →
      is_command_mention l = true → containsSub "## ".toList l = false →
      bucket_get (process_docs_line st l) (min hls.length 4) =
        bucket_get st (min hls.length 4) ++ [l]) := by
  have hstep : ∀ (m : Nat) (l : Line), containsSub "## ".toList l = true →
      containsSub "## Player level commands:".toList l = false → next_mode m l = m + 1 := by
    intro m l h1 h2
    rw [next_mode]
    simp only [h1, h2, if_true, if_false, Bool.false_eq_true]
  have hmode : ∀ (lines : List Line) (st : DocsState),
      (lines.foldl process_docs_line st).mode = lines.foldl next_mode st.mode := by
    intro lines
    induction lines with
    | nil => intro st; rfl
    | cons x xs ih =>
      intro st
      rw [List.foldl_cons, List.foldl_cons, ih, process_docs_line_mode]
  refine ⟨rfl, hstep, ?_, hmode, ?_, ?_⟩
  · intro m l h1
    rw [next_mode]
    simp only [h1, if_true]
  · have aux : ∀ (ls : List Line), (∀ l ∈ ls, containsSub "## ".toList l = true ∧
        containsSub "## Player level commands:".toList l = false) →
        ∀ m : Nat, ls.foldl next_mode m = m + ls.length := by
      intro ls
      induction ls with
      | nil => intro _ m; rfl
      | cons x xs ih =>
        intro hx m
        rw [List.foldl_cons, hstep m x (hx x (List.mem_cons_self x xs)).1
          (hx x (List.mem_cons_self x xs)).2,
          ih (fun l hl => hx l (List.mem_cons_of_mem x hl)) (m + 1),
          List.length_cons]
        omega
    simpa using aux hls h 0
  · intro st l hm hsel hh
    have hp : containsSub "## Player level commands:".toList l = false :=
      containsSub_false_of_sub _ _ _ (by decide) hh
    have hnext : next_mode st.mode l = st.mode := by
      rw [next_mode]
      simp only [hh, hp, if_false, Bool.false_eq_true]
    rw [process_docs_line]
    rw [hsel, if_pos rfl, hnext]
    rw [show ({ st with mode := st.mode } : DocsState) = st from rfl, ← hm]
    exact append_to_bucket_get st l

/-- Witness for C4: two non-Player header lines take the cursor from 0 to
2. -/
theorem docs_tier_cursor_property_witness :
    ["## Tester level commands:\n".toList, "## Intern level commands:\n".toList].foldl
      next_mode 0 =
    (["## Tester level commands:\n".toList, "## Intern level commands:\n".toList] :
      List Line).length :=
  (docs_tier_cursor_property _ (by decide)).2.2.2.2.1

/-- Routing a selected line genuinely changes the state: some bucket
grows. -/
theorem append_to_bucket_ne (st : DocsState) (l : Line) : append_to_bucket st l ≠ st := by
  rw [append_to_bucket]
  split_ifs <;> intro hEq
  · have h2 := congrArg List.length (congrArg DocsState.player hEq)
    simp only [List.length_append, List.length_cons, List.length_nil] at h2
    omega
  · have h2 := congrArg List.length (congrArg DocsState.tester hEq)
    simp only [List.length_append, List.length_cons, List.length_nil] at h2
    omega
  · have h2 := congrArg List.length (congrArg DocsState.intern hEq)
    simp only [List.length_append, List.length_cons, List.length_nil] at h2
    omega
  · have h2 := congrArg List.length (congrArg DocsState.gamemaster hEq)
    simp only [List.length_append, List.length_cons, List.length_nil] at h2
    omega
  · have h2 := congrArg List.length (congrArg DocsState.admin hEq)
    simp only [List.length_append, List.length_cons, List.length_nil] at h2
    omega

/-- Dropping the last element of a concatenation with a nonempty right
part drops it from the right part. -/
theorem dropLast_append_ne {α : Type} (u v : List α) (h : v ≠ []) :
    (u ++ v).dropLast = u ++ v.dropLast := by
  rw [List.dropLast_append, if_neg (by simpa using h)]

/-- On a line whose line break can only be its last character, containing
the closing sequence is the same as ending with it. -/
theorem closing_contained_iff_suffix (l : Line) (h : '\n' ∉ l.dropLast) :
    containsSub "**\\\n".toList l = true ↔ "**\\\n".toList <:+ l := by
  constructor
  · intro hc
    rcases (containsSub_spec _ _).mp hc with ⟨u, v, rfl⟩
    rcases hv : v with _ | ⟨x, xs⟩
    · exact ⟨u, by simp⟩
    · exfalso
      apply h
      rw [hv, dropLast_append_ne _ _ (by simp)]
      apply List.mem_append_left
      apply List.mem_append_right
      decide
  · intro hs
    exact (containsSub_spec _ _).mpr ( List.IsSuffix.isInfix hs)

/-- C8: on any line whose line break can only be its final character (the
shape every line of a line-split file has), the docs scan adds the line to
a tier bucket (the step differs from a pure cursor update) exactly when the
line contains the literal "**!" token and ends with the closing sequence
"**\" followed by the line break; a line lacking either condition is never
added to any bucket. -/
theorem docs_line_selection_iff (st : DocsState) (l : Line) (h : '\n' ∉ l.dropLast) :
    process_docs_line st l ≠ { st with mode := next_mode st.mode l } ↔
      (containsSub "**!".toList l = true ∧ "**\\\n".toList <:+ l) := by
  rw [process_docs_line]
  by_cases hm : is_command_mention l = true
  · rw [if_pos hm]
    constructor
    · intro _
      have hb := hm
      rw [is_command_mention, Bool.and_eq_true] at hb
      exact ⟨hb.1, (closing_contained_iff_suffix l h).mp hb.2⟩
    · intro _
      exact append_to_bucket_ne _ _
  · rw [if_neg hm]
    constructor
    · intro hne
      exact absurd rfl hne
    · rintro ⟨h1, h2⟩
      exact absurd (by
        rw [is_command_mention, Bool.and_eq_true]
        exact ⟨h1, (closing_contained_iff_suffix l h).mpr h2⟩) hm

/-- Witness for C8: the line "**!kick**\ + line break" is selected, the
state changes. -/
theorem docs_line_selection_iff_witness :
    process_docs_line init_docs_state "**!kick**\\\n".toList ≠
      { init_docs_state with
          mode := next_mode init_docs_state.mode "**!kick**\\\n".toList } :=
  (docs_line_selection_iff _ _ (by decide)).mpr (by decide)

/-- The documentation line of C9: the alias wrapped in the docs' bold and
escape formatting, with extra text between alias and closer. -/
def build_doc_line (a0 : Line) : Line :=
  "**!".toList ++ a0 ++ " extra text **\\\n".toList

/-- C9: a documentation line built by wrapping an alias (provided the
wrapping introduced no section-header token) is selected and classified
into the bucket of the tier active at that point, with the cursor
untouched; and the cleaning pass's fixed 3-character-prefix,
4-character-suffix strip recovers exactly the wrapped content, the
formatting wrapper removed. -/
theorem doc_line_round_trip (st : DocsState) (a0 : Line)
    (h : containsSub "## ".toList (build_doc_line a0) = false) :
    process_docs_line st (build_doc_line a0) =
      append_to_bucket st (build_doc_line a0) ∧
    strip_formatting [build_doc_line a0] = [a0 ++ " extra text ".toList] := by
  have hsplit : " extra text **\\\n".toList = " extra text ".toList ++ "**\\\n".toList := by
    decide
  constructor
  · have hp : containsSub "## Player level commands:".toList (build_doc_line a0) = false :=
      containsSub_false_of_sub _ _ _ (by decide) h
    have hnext : next_mode st.mode (build_doc_line a0) = st.mode := by
      rw [next_mode]
      simp only [h, hp, if_false, Bool.false_eq_true]
    have hsel : is_command_mention (build_doc_line a0) = true := by
      rw [is_command_mention, Bool.and_eq_true]
      constructor
      · exact (containsSub_spec _ _).mpr
          ⟨[], a0 ++ " extra text **\\\n".toList, by simp [build_doc_line]⟩
      · exact (containsSub_spec _ _).mpr
          ⟨"**!".toList ++ a0 ++ " extra text ".toList, [], by
            simp [build_doc_line, hsplit, List.append_assoc]⟩
    rw [process_docs_line, hsel, if_pos rfl, hnext]
  · rw [strip_formatting, List.map_cons, List.map_nil]
    have hdecomp : build_doc_line a0 =
        ("**!".toList ++ (a0 ++ " extra text ".toList)) ++ "**\\\n".toList := by
      rw [build_doc_line, hsplit]
      simp [List.append_assoc]
    have hlen : ("**!".toList ++ (a0 ++ " extra text ".toList)).length =
        (build_doc_line a0).length - 4 := by
      rw [hdecomp]
      simp only [List.length_append]
      norm_num
    rw [pyslice, ← hlen]
    conv_lhs => rw [hdecomp]
    rw [List.take_left, show ("**!".toList : Line) = ['*', '*', '!'] from rfl]
    rw [show (3 : Nat) = (['*', '*', '!'] : Line).length from rfl, List.drop_left]

/-- Witness for C9 at a concrete alias and the initial scan state. -/
theorem doc_line_round_trip_witness :
    process_docs_line init_docs_state (build_doc_line "kick".toList) =
      append_to_bucket init_docs_state (build_doc_line "kick".toList) ∧
    strip_formatting [build_doc_line "kick".toList] =
      ["kick".toList ++ " extra text ".toList] :=
  doc_line_round_trip _ _ (by decide)

end SpiritSpider
